import Mathlib

/-!
The httpserver program: client address resolution and request handlers.

A shallow embedding of `main.go`.  Go strings are modelled as lists of
characters (well-formed text), the `http.Header` map as an association list
whose order stands for the (unspecified) iteration order of the Go map, the
process environment as a partial function, and the `http.ResponseWriter` as an
explicit state that the handlers thread through.  A panic of the Go code is the
value `none`.

The functions of the Go standard library that `main.go` calls (`strings`,
`unicode`, `net`, `net/textproto`, `net/http`) are modelled after their
documented behaviour and carry the names they have in Go.
-/

namespace HttpServer

/-- A Go string. -/
abbrev GoString := List Char

/-! ## unicode, strings -/

/-- Go `unicode.IsSpace`: the Latin-1 white space characters and the code
points with the Unicode `White_Space` property. -/
def IsSpace (c : Char) : Bool :=
  let n := c.toNat
  (9 ≤ n && n ≤ 13) || n == 32 || n == 133 || n == 160 || n == 5760 ||
    (8192 ≤ n && n ≤ 8202) || n == 8232 || n == 8233 || n == 8239 ||
    n == 8287 || n == 12288

/-- Go `strings.TrimSpace`: all leading and all trailing white space removed. -/
def TrimSpace (s : GoString) : GoString :=
  (s.dropWhile IsSpace).rdropWhile IsSpace

/-- Go `strings.Split(s, sep)` for a one-byte separator: the pieces of `s`
between the occurrences of `sep`; `Split "" sep` is the one-element slice
`[""]`. -/
def Split (sep : Char) : GoString → List GoString
  | [] => [[]]
  | c :: cs =>
    if c = sep then [] :: Split sep cs
    else
      match Split sep cs with
      | [] => [[c]]
      | x :: xs => (c :: x) :: xs

/-- Go `bytealg.IndexByteString`: position of the first `c` in `s` (`none`
for Go's `-1`). -/
def IndexByte : GoString → Char → Option Nat
  | [], _ => none
  | x :: xs, c => if x = c then some 0 else (IndexByte xs c).map (· + 1)

/-- Go `bytealg.LastIndexByteString`: position of the last `c` in `s` (`none`
for Go's `-1`). -/
def LastIndexByte : GoString → Char → Option Nat
  | [], _ => none
  | x :: xs, c =>
    match LastIndexByte xs c with
    | some i => some (i + 1)
    | none => if x = c then some 0 else none

/-! ## net -/

/-- The reasons for which `net.SplitHostPort` returns an `AddrError`. -/
inductive AddrError where
  | missingPort
  | tooManyColons
  | missingCloseBracket
  | unexpectedOpenBracket
  | unexpectedCloseBracket
  deriving DecidableEq, Repr

/-- Go `net.SplitHostPort`: splits `host:port`, `[host]:port` into host and
port. -/
def SplitHostPort (hostport : GoString) : Except AddrError (GoString × GoString) :=
  -- The port starts after the last colon.
  match LastIndexByte hostport ':' with
  | none => .error .missingPort
  | some i =>
    let bracketed : Except AddrError (GoString × Nat × Nat) :=
      if hostport.head? = some '[' then
        -- Expect the first ']' just before the last ':'.
        match IndexByte hostport ']' with
        | none => .error .missingCloseBracket
        | some e =>
          if e + 1 = hostport.length then .error .missingPort
          else if e + 1 = i then .ok ((hostport.take e).drop 1, 1, e + 1)
          else if hostport.get? (e + 1) = some ':' then .error .tooManyColons
          else .error .missingPort
      else
        let host := hostport.take i
        if (IndexByte host ':').isSome then .error .tooManyColons
        else .ok (host, 0, 0)
    match bracketed with
    | .error err => .error err
    | .ok (host, j, k) =>
      if (IndexByte (hostport.drop j) '[').isSome then .error .unexpectedOpenBracket
      else if (IndexByte (hostport.drop k) ']').isSome then .error .unexpectedCloseBracket
      else .ok (host, hostport.drop (i + 1))

/-! ## net/textproto, net/http -/

/-- Go `textproto.validHeaderFieldByte`: the bytes allowed in a header field
name (an RFC 7230 token). -/
def validHeaderFieldByte (c : Char) : Bool :=
  c.isAlphanum ||
    [33, 35, 36, 37, 38, 39, 42, 43, 45, 46, 94, 95, 96, 124, 126].contains c.toNat

/-- The casing loop of Go `textproto.canonicalMIMEHeaderKey`: first letter and
every letter after a dash in upper case, the others in lower case. -/
def canonicalCase : Bool → GoString → GoString
  | _, [] => []
  | upper, c :: cs =>
    let c1 :=
      if upper && c.isLower then c.toUpper
      else if !upper && c.isUpper then c.toLower
      else c
    c1 :: canonicalCase (c1 == '-') cs

/-- Go `textproto.CanonicalMIMEHeaderKey`: a key with a byte that is not
allowed in a field name is returned unchanged, any other key in canonical
case. -/
def CanonicalMIMEHeaderKey (s : GoString) : GoString :=
  if s.all validHeaderFieldByte then canonicalCase true s else s

/-- Go `http.Header`, a `map[string][]string`. -/
abbrev Header := List (GoString × List GoString)

/-- The map read `h[key]`: the zero value (`nil`) for an absent key. -/
def Header.lookup (h : Header) (key : GoString) : List GoString :=
  match h with
  | [] => []
  | (k, vs) :: rest => if k = key then vs else Header.lookup rest key

/-- The map write `h[key] = vs`. -/
def Header.store (h : Header) (key : GoString) (vs : List GoString) : Header :=
  match h with
  | [] => [(key, vs)]
  | (k, old) :: rest =>
    if k = key then (k, vs) :: rest else (k, old) :: Header.store rest key vs

/-- Go `Header.Values`: all values under the canonical form of `key`. -/
def Header.Values (h : Header) (key : GoString) : List GoString :=
  h.lookup (CanonicalMIMEHeaderKey key)

/-- Go `Header.Get`: the first value under the canonical form of `key`, or
`""`. -/
def Header.Get (h : Header) (key : GoString) : GoString :=
  match h.lookup (CanonicalMIMEHeaderKey key) with
  | [] => []
  | v :: _ => v

/-- Go `Header.Add`: appends `value` to the values under the canonical form of
`key`. -/
def Header.Add (h : Header) (key value : GoString) : Header :=
  let k := CanonicalMIMEHeaderKey key
  h.store k (h.lookup k ++ [value])

/-- The fields of `*http.Request` that the handlers read. -/
structure Request where
  Header : Header
  RemoteAddr : GoString

/-- Go `Header.get`: the first value under `key` as it is written, or `""`. -/
def Header.first (h : Header) (key : GoString) : GoString :=
  match h.lookup key with
  | [] => []
  | v :: _ => v

/-- Go `Header.Del`: removes the entry under the canonical form of `key`. -/
def Header.Del (h : Header) (key : GoString) : Header :=
  h.filter (fun e => decide (e.1 ≠ CanonicalMIMEHeaderKey key))

/-- The digit loop of Go `strconv.ParseUint` in base 10: the value of a run of
decimal digits, `none` when another character occurs. -/
def digitsValue : GoString → Nat → Option Nat
  | [], acc => some acc
  | c :: cs, acc =>
    if c.isDigit then digitsValue cs (acc * 10 + (c.toNat - 48)) else none

/-- Go `strconv.ParseUint(s, 10, 64)`: `none` for a syntax or range error. -/
def ParseUint (s : GoString) : Option Nat :=
  if s = [] then none
  else
    match digitsValue s 0 with
    | none => none
    | some n => if n < 2 ^ 64 then some n else none

/-- Go `strconv.ParseInt(s, 10, 64)`: an optional sign and decimal digits,
`none` for a syntax or range error. -/
def ParseInt (s : GoString) : Option Int :=
  match s with
  | [] => none
  | c :: rest =>
    let neg := decide (c = '-')
    let digits := if c = '+' ∨ c = '-' then rest else s
    match ParseUint digits with
    | none => none
    | some un =>
      if !neg && decide (2 ^ 63 ≤ un) then none
      else if neg && decide (2 ^ 63 < un) then none
      else some (if neg then -(un : Int) else (un : Int))

/-- The length of a Go string, in bytes. -/
def byteLen (s : GoString) : Nat :=
  (s.map Char.utf8Size).sum

/-- Go `http.StatusOK`. -/
def StatusOK : Nat := 200

/-- Go `bodyAllowedForStatus`: no body with 1xx, 204 and 304. -/
def bodyAllowedForStatus (status : Nat) : Bool :=
  if 100 ≤ status ∧ status ≤ 199 then false
  else if status = 204 then false
  else if status = 304 then false
  else true

/-- The state behind the `http.ResponseWriter` of the server. -/
structure ResponseWriter where
  /-- the map returned by `w.Header()` -/
  header : Header
  /-- the status code that went out, `none` until the header is written -/
  status : Option Nat
  /-- the header as it was when the status line went out -/
  sent : Header
  /-- the declared `Content-Length`, `-1` when there is none -/
  contentLength : Int
  /-- the number of bytes the handler has asked to write -/
  written : Nat
  /-- the bytes written so far -/
  body : GoString

/-- The writer a handler is called with: nothing set, nothing written. -/
def ResponseWriter.fresh : ResponseWriter :=
  { header := [], status := none, sent := [], contentLength := -1, written := 0, body := [] }

/-- Go `w.WriteHeader(code)`: sends the status line and the header map as it
is now, and takes over a well-formed `Content-Length` of that map as the
declared length of the body (a malformed one is deleted); a second call has no
effect. -/
def ResponseWriter.WriteHeader (w : ResponseWriter) (code : Nat) : ResponseWriter :=
  match w.status with
  | some _ => w
  | none =>
    let w := { w with status := some code, sent := w.header }
    let cl := w.header.first "Content-Length".toList
    if cl ≠ [] then
      match ParseInt cl with
      | some v =>
        if 0 ≤ v then { w with contentLength := v }
        else { w with header := w.header.Del "Content-Length".toList }
      | none => { w with header := w.header.Del "Content-Length".toList }
    else w

/-- Go `w.Write(b)`: writes the header with status 200 if it is not written
yet; the bytes are refused, and none of them written, when the status allows
no body or when they exceed the declared `Content-Length`. -/
def ResponseWriter.Write (w : ResponseWriter) (b : GoString) : ResponseWriter :=
  let w := w.WriteHeader StatusOK
  if byteLen b = 0 then w
  else if !bodyAllowedForStatus (w.status.getD 0) then w
  else
    let w := { w with written := w.written + byteLen b }
    if w.contentLength ≠ -1 ∧ w.contentLength < (w.written : Int) then w
    else { w with body := w.body ++ b }

/-! ## os, zap -/

/-- The process environment. -/
abbrev Env := GoString → Option GoString

/-- Go `os.Getenv`: the value of the variable, `""` when it is unset. -/
def Getenv (env : Env) (key : GoString) : GoString :=
  (env key).getD []

/-- Go `zapcore.Level`. -/
inductive Level where
  | DebugLevel
  | InfoLevel
  | WarnLevel
  | ErrorLevel
  | DPanicLevel
  | PanicLevel
  | FatalLevel
  deriving DecidableEq, Repr

/-- The integer value of a `zapcore.Level`. -/
def Level.toInt : Level → Int
  | .DebugLevel => -1
  | .InfoLevel => 0
  | .WarnLevel => 1
  | .ErrorLevel => 2
  | .DPanicLevel => 3
  | .PanicLevel => 4
  | .FatalLevel => 5

/-- Go `AtomicLevel.Enabled`: an entry is written when its level is at least
the threshold. -/
def Level.Enabled (threshold l : Level) : Bool :=
  decide (threshold.toInt ≤ l.toInt)

/-- The `lumberjack.Logger` that `getLogWriter` configures. -/
structure LumberjackLogger where
  Filename : GoString
  MaxSize : Nat
  MaxBackups : Nat
  MaxAge : Nat
  Compress : Bool
  deriving DecidableEq

/-- The package-level variables `atomicLogLevel` and `sugarLogger`, and the
lines the logger has written. -/
structure Globals where
  atomicLogLevel : Level
  /-- `none` is the nil pointer; otherwise the writer the logger is built on -/
  sugarLogger : Option LumberjackLogger
  /-- the entries written so far, oldest first -/
  output : List (Level × GoString)

/-- The package-level variables when `main` starts: `zap.NewAtomicLevel()` is
at `InfoLevel`, `sugarLogger` is nil. -/
def Globals.initial : Globals :=
  { atomicLogLevel := .InfoLevel, sugarLogger := none, output := [] }

/-! ## main.go -/

/-- Source `getLogWriter`: the rotating log file under `LOG_PATH`. -/
def getLogWriter (env : Env) : LumberjackLogger :=
  let logPath := Getenv env "LOG_PATH".toList
  let logFileName := "httpsvc.log".toList
  let logPath := if logPath = [] then "./".toList ++ logFileName else logPath ++ "/".toList ++ logFileName
  { Filename := logPath, MaxSize := 1, MaxBackups := 5, MaxAge := 30, Compress := false }

/-- Source `InitLogger`: sets the threshold to Debug, then to Info when
`PROFILE` is `PROD`, and builds the logger. -/
def InitLogger (env : Env) (g : Globals) : Globals :=
  let writeSyncer := getLogWriter env
  let g := { g with atomicLogLevel := .DebugLevel }
  let profile := Getenv env "PROFILE".toList
  let g := if profile = "PROD".toList then { g with atomicLogLevel := .InfoLevel } else g
  { g with sugarLogger := some writeSyncer }

/-- The calls `sugarLogger.Debugf` and `sugarLogger.Infof`: a call on the nil
logger panics; otherwise the entry is written when its level is enabled. -/
def logf (g : Globals) (l : Level) (msg : GoString) : Option Globals :=
  match g.sugarLogger with
  | none => none
  | some _ =>
    if g.atomicLogLevel.Enabled l then some { g with output := g.output ++ [(l, msg)] }
    else some g

/-- Source `getClientIP`. -/
def getClientIP (r : Request) : Option GoString :=
  -- X-Real-IP
  let clientIP := TrimSpace (r.Header.Get "X-Real-IP".toList)
  if clientIP ≠ [] then some clientIP
  else
    -- X-Forwarded-For
    let clientIP := TrimSpace (r.Header.Get "X-Forwarded-For".toList)
    if clientIP ≠ [] then
      -- the index expression `[0]` panics on an empty slice
      (Split ',' clientIP).head?
    else
      -- ip:port
      match SplitHostPort (TrimSpace r.RemoteAddr) with
      | .ok (clientIP, _) => some clientIP
      | .error _ => some []

/-- The state a handler works on: the response writer and the globals. -/
structure HandlerState where
  w : ResponseWriter
  g : Globals

/-- The inner loop of `index`: one request header, value by value. -/
def echoValues (key : GoString) : List GoString → HandlerState → Option HandlerState
  | [], s => some s
  | v :: vs, s =>
    match logf s.g .DebugLevel ("Request header: ".toList ++ key ++ " = ".toList ++ v) with
    | none => none
    | some g => echoValues key vs { w := { s.w with header := s.w.header.Add key v }, g := g }

/-- The outer loop of `index`: `for key, value := range r.Header`. -/
def echoHeaders : Header → HandlerState → Option HandlerState
  | [], s => some s
  | (key, value) :: rest, s =>
    match echoValues key value s with
    | none => none
    | some s1 => echoHeaders rest s1

/-- Source `index`. -/
def index (env : Env) (r : Request) (s : HandlerState) : Option HandlerState := do
  let s ← echoHeaders r.Header s
  let sysVersion := Getenv env "VERSION".toList
  let sysVersion := if sysVersion = [] then "0.0.1".toList else sysVersion
  let w := { s.w with header := s.w.header.Add "Version".toList sysVersion }
  let w := w.WriteHeader StatusOK
  let clientIP ← getClientIP r
  let body := "<h1>Hello World</h1>".toList
  let body := body ++ ("<p><h1>".toList ++ clientIP ++ "</h1></p>".toList)
  let w := w.Write body
  let g ← logf s.g .InfoLevel ("Request client ip: ".toList ++ clientIP)
  let g ← logf g .InfoLevel "Response status code: 200".toList
  pure { w := w, g := g }

/-- Source `healthz`. -/
def healthz (r : Request) (s : HandlerState) : Option HandlerState := do
  let clientIP ← getClientIP r
  let g ← logf s.g .DebugLevel ("Request healthz: ".toList ++ clientIP)
  let w := s.w.WriteHeader StatusOK
  let status := "success".toList
  let w := w.Write status
  pure { w := w, g := g }

/-! ## Terms of the specification -/

/-- The values that a request carries under the header names whose canonical
form is `k`, in the order the header map is iterated. -/
def echoed : Header → GoString → List GoString
  | [], _ => []
  | (key, vs) :: rest, k =>
    if CanonicalMIMEHeaderKey key = k then vs ++ echoed rest k else echoed rest k

/-- The configured version: the environment value `VERSION`, or `0.0.1` when
it is unset or empty. -/
def configuredVersion (env : Env) : GoString :=
  match env "VERSION".toList with
  | none => "0.0.1".toList
  | some v => if v = [] then "0.0.1".toList else v

/-- The HTML body of the echo handler for a resolved client address. -/
def greeting (clientIP : GoString) : GoString :=
  "<h1>Hello World</h1><p><h1>".toList ++ clientIP ++ "</h1></p>".toList

/-- An environment in which no variable is set. -/
def emptyEnv : Env := fun _ => none

/-- The package-level variables of a server started in the empty environment:
`main` runs `InitLogger` before it registers the handlers. -/
def startedGlobals : Globals := InitLogger emptyEnv Globals.initial

/-! ## Lemmas on the string functions -/

theorem Split_ne_nil (sep : Char) (s : GoString) : Split sep s ≠ [] := by
  cases s with
  | nil => simp [Split]
  | cons c cs =>
    unfold Split
    split
    · simp
    · split <;> simp

theorem Split_head? (sep : Char) (s : GoString) :
    (Split sep s).head? = some (s.takeWhile (fun c => decide (c ≠ sep))) := by
  induction s with
  | nil => simp [Split]
  | cons c cs ih =>
    unfold Split
    by_cases hc : c = sep
    · simp [hc]
    · rw [if_neg hc]
      cases hs : Split sep cs with
      | nil => exact absurd hs (Split_ne_nil sep cs)
      | cons x xs =>
        rw [hs] at ih
        simp only [List.head?_cons, Option.some.injEq] at ih
        simp [hc, ih]

theorem Split_intercalate (sep : Char) (s : GoString) :
    List.intercalate [sep] (Split sep s) = s := by
  induction s with
  | nil => simp [Split, List.intercalate]
  | cons c cs ih =>
    unfold Split
    by_cases hc : c = sep
    · rw [if_pos hc]
      cases hs : Split sep cs with
      | nil => exact absurd hs (Split_ne_nil sep cs)
      | cons x xs =>
        rw [hs] at ih
        simp only [List.intercalate, List.intersperse_cons_cons, List.flatten_cons,
          List.nil_append, List.singleton_append] at ih ⊢
        rw [hc]
        simpa using ih
    · rw [if_neg hc]
      cases hs : Split sep cs with
      | nil => exact absurd hs (Split_ne_nil sep cs)
      | cons x xs =>
        rw [hs] at ih
        cases xs with
        | nil => simpa [List.intercalate] using ih
        | cons y ys =>
          simp only [List.intercalate, List.intersperse_cons_cons, List.flatten_cons,
            List.cons_append] at ih ⊢
          rw [ih]

theorem TrimSpace_sublist (s : GoString) : (TrimSpace s).Sublist s :=
  ((List.rdropWhile_prefix IsSpace (s.dropWhile IsSpace)).sublist).trans
    (List.dropWhile_suffix IsSpace).sublist

theorem not_mem_TrimSpace {c : Char} {s : GoString} (h : c ∉ s) : c ∉ TrimSpace s :=
  fun hc => h ((TrimSpace_sublist s).subset hc)

theorem TrimSpace_eq_self (s : GoString)
    (hhead : ∀ c, s.head? = some c → IsSpace c = false)
    (hlast : ∀ c, s.getLast? = some c → IsSpace c = false) : TrimSpace s = s := by
  cases s with
  | nil => simp [TrimSpace, List.rdropWhile]
  | cons a l =>
    have ha : IsSpace a = false := hhead a rfl
    have h1 : (a :: l).dropWhile IsSpace = a :: l := by
      simp [List.dropWhile_cons, ha]
    unfold TrimSpace
    rw [h1, List.rdropWhile_eq_self_iff]
    intro hl
    have := hlast ((a :: l).getLast hl) (List.getLast?_eq_getLast _ hl)
    simp [this]

theorem IndexByte_eq_none {s : GoString} {c : Char} (h : c ∉ s) : IndexByte s c = none := by
  induction s with
  | nil => rfl
  | cons x xs ih =>
    simp only [List.mem_cons, not_or] at h
    simp [IndexByte, Ne.symm h.1, ih h.2]

theorem LastIndexByte_eq_none {s : GoString} {c : Char} (h : c ∉ s) :
    LastIndexByte s c = none := by
  induction s with
  | nil => rfl
  | cons x xs ih =>
    simp only [List.mem_cons, not_or] at h
    simp [LastIndexByte, Ne.symm h.1, ih h.2]

theorem LastIndexByte_append (host port : GoString) (c : Char) (h : c ∉ port) :
    LastIndexByte (host ++ c :: port) c = some host.length := by
  induction host with
  | nil => simp [LastIndexByte, LastIndexByte_eq_none h]
  | cons x xs ih => simp [LastIndexByte, ih]

theorem SplitHostPort_host_port (host port : GoString)
    (hc : ':' ∉ host) (ho : '[' ∉ host) (hcl : ']' ∉ host)
    (pc : ':' ∉ port) (po : '[' ∉ port) (pcl : ']' ∉ port) :
    SplitHostPort (host ++ ':' :: port) = .ok (host, port) := by
  have hhead : (host ++ ':' :: port).head? ≠ some '[' := by
    cases host with
    | nil => simp
    | cons x xs =>
      simp only [List.mem_cons, not_or] at ho
      simpa using Ne.symm ho.1
  have hopen : '[' ∉ host ++ ':' :: port := by simp [ho, po]
  have hclose : ']' ∉ host ++ ':' :: port := by simp [hcl, pcl]
  unfold SplitHostPort
  simp only [LastIndexByte_append host port ':' pc, if_neg hhead, List.take_left',
    IndexByte_eq_none hc, List.drop_zero, IndexByte_eq_none hopen, IndexByte_eq_none hclose,
    Option.isSome_none, Bool.false_eq_true, if_false]
  simp

theorem getClientIP_isSome (r : Request) : ∃ ip, getClientIP r = some ip := by
  unfold getClientIP
  simp only
  split
  · exact ⟨_, rfl⟩
  · split
    · rw [Split_head?]; exact ⟨_, rfl⟩
    · split <;> exact ⟨_, rfl⟩

/-- The key that `Header.Get` reads for `X-Real-IP` is its canonical form
`X-Real-Ip`. -/
theorem Get_xRealIP (h : Header) :
    h.Get "X-Real-IP".toList =
      match h.lookup "X-Real-Ip".toList with
      | [] => []
      | v :: _ => v := by
  have : CanonicalMIMEHeaderKey "X-Real-IP".toList = "X-Real-Ip".toList := by decide
  simp only [Header.Get, this]

/-! ## Lemmas on the header map and the handlers -/

theorem lookup_store (h : Header) (k k1 : GoString) (vs : List GoString) :
    (h.store k vs).lookup k1 = if k1 = k then vs else h.lookup k1 := by
  induction h with
  | nil =>
    by_cases hk : k = k1
    · simp [Header.store, Header.lookup, hk]
    · simp [Header.store, Header.lookup, hk, Ne.symm hk]
  | cons e rest ih =>
    obtain ⟨k0, old⟩ := e
    by_cases h0 : k0 = k
    · subst h0
      by_cases h1 : k0 = k1
      · simp [Header.store, Header.lookup, h1]
      · simp [Header.store, Header.lookup, h1, Ne.symm h1]
    · by_cases h1 : k0 = k1
      · subst h1
        simp [Header.store, Header.lookup, h0]
      · simp [Header.store, Header.lookup, h0, h1, ih]

theorem lookup_Add (h : Header) (key v k : GoString) :
    (h.Add key v).lookup k =
      if k = CanonicalMIMEHeaderKey key then h.lookup k ++ [v] else h.lookup k := by
  unfold Header.Add
  simp only [lookup_store]
  by_cases hk : k = CanonicalMIMEHeaderKey key
  · simp [hk]
  · simp [hk]

/-- A call on a logger that is not nil returns and leaves the logger in place. -/
theorem logf_some (g : Globals) (l : Level) (msg : GoString) (h : g.sugarLogger ≠ none) :
    ∃ g1, logf g l msg = some g1 ∧ g1.sugarLogger = g.sugarLogger := by
  obtain ⟨lg, hl⟩ : ∃ lg, g.sugarLogger = some lg := by
    cases hg : g.sugarLogger with
    | none => exact absurd hg h
    | some lg => exact ⟨lg, rfl⟩
  unfold logf
  rw [hl]
  simp only
  split
  · exact ⟨_, rfl, rfl⟩
  · exact ⟨_, rfl, hl⟩

/-- The effect of the inner loop of `index` on the response writer. -/
theorem echoValues_some (key : GoString) (vs : List GoString) (s : HandlerState)
    (h : s.g.sugarLogger ≠ none) :
    ∃ s1, echoValues key vs s = some s1 ∧ s1.g.sugarLogger = s.g.sugarLogger ∧
      s1.w.status = s.w.status ∧ s1.w.contentLength = s.w.contentLength ∧ s1.w.body = s.w.body ∧
      ∀ k, s1.w.header.lookup k =
        if CanonicalMIMEHeaderKey key = k then s.w.header.lookup k ++ vs
        else s.w.header.lookup k := by
  induction vs generalizing s with
  | nil => exact ⟨s, rfl, rfl, rfl, rfl, rfl, fun k => by simp⟩
  | cons v vs ih =>
    obtain ⟨g1, hg1, hlog⟩ := logf_some s.g .DebugLevel
      ("Request header: ".toList ++ key ++ " = ".toList ++ v) h
    obtain ⟨s1, hs1, hl1, hst, hsent, hbody, hlook⟩ :=
      ih { w := { s.w with header := s.w.header.Add key v }, g := g1 } (by rw [hlog]; exact h)
    refine ⟨s1, ?_, hl1.trans hlog, hst, hsent, hbody, fun k => ?_⟩
    · rw [echoValues]
      simp only [hg1, hs1]
    · rw [hlook k]
      simp only [lookup_Add]
      by_cases hk : CanonicalMIMEHeaderKey key = k
      · simp [hk]
      · simp [hk, Ne.symm hk]

/-- The effect of the header loop of `index` on the response writer. -/
theorem echoHeaders_some (hs : Header) (s : HandlerState) (h : s.g.sugarLogger ≠ none) :
    ∃ s1, echoHeaders hs s = some s1 ∧ s1.g.sugarLogger = s.g.sugarLogger ∧
      s1.w.status = s.w.status ∧ s1.w.contentLength = s.w.contentLength ∧ s1.w.body = s.w.body ∧
      ∀ k, s1.w.header.lookup k = s.w.header.lookup k ++ echoed hs k := by
  induction hs generalizing s with
  | nil => exact ⟨s, rfl, rfl, rfl, rfl, rfl, fun k => by simp [echoed]⟩
  | cons e rest ih =>
    obtain ⟨key, vs⟩ := e
    obtain ⟨s1, hs1, hl1, hst1, hsent1, hbody1, hlook1⟩ := echoValues_some key vs s h
    obtain ⟨s2, hs2, hl2, hst2, hsent2, hbody2, hlook2⟩ := ih s1 (by rw [hl1]; exact h)
    refine ⟨s2, ?_, hl2.trans hl1, hst2.trans hst1, hsent2.trans hsent1,
      hbody2.trans hbody1, fun k => ?_⟩
    · rw [echoHeaders]
      simp only [hs1, hs2]
    · rw [hlook2 k, hlook1 k]
      by_cases hk : CanonicalMIMEHeaderKey key = k
      · simp [echoed, hk]
      · simp [echoed, hk]

theorem sublist_echoed (hs : Header) (key : GoString) (vs : List GoString)
    (h : (key, vs) ∈ hs) : vs.Sublist (echoed hs (CanonicalMIMEHeaderKey key)) := by
  induction hs with
  | nil => simp at h
  | cons e rest ih =>
    obtain ⟨k0, v0⟩ := e
    rcases List.mem_cons.mp h with heq | hmem
    · cases heq
      simp [echoed]
    · by_cases hk : CanonicalMIMEHeaderKey k0 = CanonicalMIMEHeaderKey key
      · simp only [echoed, hk, if_true]
        exact (ih hmem).trans (List.sublist_append_right _ _)
      · simp only [echoed, hk, if_false]
        exact ih hmem

theorem echoed_eq_nil (hs : Header) (k : GoString)
    (h : ∀ key vs, (key, vs) ∈ hs → CanonicalMIMEHeaderKey key = k → vs = []) :
    echoed hs k = [] := by
  induction hs with
  | nil => rfl
  | cons e rest ih =>
    obtain ⟨k0, v0⟩ := e
    have hrest := ih (fun key vs hm => h key vs (List.mem_cons_of_mem _ hm))
    by_cases hk : CanonicalMIMEHeaderKey k0 = k
    · simp [echoed, hk, hrest, h k0 v0 (List.mem_cons_self _ _) hk]
    · simp [echoed, hk, hrest]

theorem sysVersion_eq (env : Env) :
    (if Getenv env "VERSION".toList = [] then "0.0.1".toList else Getenv env "VERSION".toList)
      = configuredVersion env := by
  unfold Getenv configuredVersion
  cases env "VERSION".toList with
  | none => simp
  | some v => simp

/-- After `InitLogger` the logger is not nil. -/
theorem InitLogger_sugarLogger (env : Env) (g : Globals) :
    (InitLogger env g).sugarLogger ≠ none := by
  simp [InitLogger]

theorem byteLen_eq_zero {b : GoString} (h : byteLen b = 0) : b = [] := by
  cases b with
  | nil => rfl
  | cons c cs =>
    have hc := Char.utf8Size_pos c
    simp only [byteLen, List.map_cons, List.sum_cons] at h
    omega

/-- The first `WriteHeader` sends the status with the header map as it is. -/
theorem WriteHeader_of_none (w : ResponseWriter) (code : Nat) (h : w.status = none) :
    (w.WriteHeader code).status = some code ∧ (w.WriteHeader code).sent = w.header ∧
    (w.WriteHeader code).body = w.body ∧
    (w.header.first "Content-Length".toList = [] →
      (w.WriteHeader code).contentLength = w.contentLength) := by
  unfold ResponseWriter.WriteHeader
  rw [h]
  simp only
  split
  · split
    · split
      · exact ⟨rfl, rfl, rfl, fun hc => by contradiction⟩
      · exact ⟨rfl, rfl, rfl, fun hc => by contradiction⟩
    · exact ⟨rfl, rfl, rfl, fun hc => by contradiction⟩
  · exact ⟨rfl, rfl, rfl, fun _ => rfl⟩

theorem WriteHeader_of_some (w : ResponseWriter) (code c : Nat) (h : w.status = some c) :
    w.WriteHeader code = w := by
  unfold ResponseWriter.WriteHeader
  rw [h]

/-- A `Write` after the header went out leaves status and sent header alone,
and appends the bytes when the status is 200 and no length is declared. -/
theorem Write_of_some (w : ResponseWriter) (b : GoString) (c : Nat) (h : w.status = some c) :
    (w.Write b).status = some c ∧ (w.Write b).sent = w.sent ∧
    (c = 200 → w.contentLength = -1 → (w.Write b).body = w.body ++ b) := by
  unfold ResponseWriter.Write
  rw [WriteHeader_of_some w StatusOK c h]
  simp only
  split
  · next hb =>
    refine ⟨h, rfl, fun _ _ => ?_⟩
    rw [byteLen_eq_zero hb, List.append_nil]
  · split
    · next hnb =>
      refine ⟨h, rfl, fun hc _ => ?_⟩
      rw [h, hc] at hnb
      exact absurd hnb (by decide)
    · split
      · next hcl => exact ⟨h, rfl, fun _ hm => absurd hm hcl.1⟩
      · exact ⟨h, rfl, fun _ _ => rfl⟩

/-- What `index` leaves behind when it is called with a fresh writer in a
server whose logger is initialised: status 200, the echoed headers followed by
`Version`, and the page as the body when no `Content-Length` was echoed. -/
theorem index_fresh (env : Env) (r : Request) (g : Globals) (hlog : g.sugarLogger ≠ none) :
    ∃ ip s, getClientIP r = some ip ∧ index env r ⟨ResponseWriter.fresh, g⟩ = some s ∧
      s.w.status = some 200 ∧
      (∀ k, s.w.sent.lookup k =
        echoed r.Header k ++ (if k = "Version".toList then [configuredVersion env] else [])) ∧
      (echoed r.Header "Content-Length".toList = [] → s.w.body = greeting ip) := by
  obtain ⟨ip, hip⟩ := getClientIP_isSome r
  have hcanon : CanonicalMIMEHeaderKey "Version".toList = "Version".toList := by decide
  obtain ⟨s1, hs1, hl1, e1, hcl1, e3, hl⟩ :=
    echoHeaders_some r.Header ⟨ResponseWriter.fresh, g⟩ hlog
  have e1 : s1.w.status = none := e1
  have e3 : s1.w.body = [] := e3
  have hl : ∀ k, s1.w.header.lookup k = echoed r.Header k := fun k => by
    rw [hl k]
    simp [ResponseWriter.fresh, Header.lookup]
  have hlog1 : s1.g.sugarLogger ≠ none := by rw [hl1]; exact hlog
  obtain ⟨g2, hg2, hl2⟩ := logf_some s1.g .InfoLevel ("Request client ip: ".toList ++ ip) hlog1
  obtain ⟨g3, hg3, _⟩ := logf_some g2 .InfoLevel "Response status code: 200".toList
    (by rw [hl2]; exact hlog1)
  have hidx : index env r ⟨ResponseWriter.fresh, g⟩ = some
      { w := (ResponseWriter.WriteHeader
            { s1.w with header := s1.w.header.Add "Version".toList (configuredVersion env) }
            StatusOK).Write (greeting ip),
        g := g3 } := by
    unfold index
    simp only [hs1, hip, hg2, hg3, sysVersion_eq, Option.bind_eq_bind, Option.some_bind,
      Option.pure_def]
    simp [greeting]
  have hlook : ∀ k, (s1.w.header.Add "Version".toList (configuredVersion env)).lookup k =
      echoed r.Header k ++ (if k = "Version".toList then [configuredVersion env] else []) := by
    intro k
    simp only [lookup_Add, hl, hcanon]
    by_cases hk : k = "Version".toList
    · rw [if_pos hk, if_pos hk]
    · rw [if_neg hk, if_neg hk, List.append_nil]
  obtain ⟨w1, w2, w3, w4⟩ := WriteHeader_of_none
    { s1.w with header := s1.w.header.Add "Version".toList (configuredVersion env) }
    StatusOK e1
  obtain ⟨v1, v2, v3⟩ := Write_of_some _ (greeting ip) StatusOK w1
  refine ⟨ip, _, hip, hidx, v1, fun k => ?_, fun hcl => ?_⟩
  · exact (congrArg (fun h => Header.lookup h k) (v2.trans w2)).trans (hlook k)
  · have hfirst : Header.first
        (s1.w.header.Add "Version".toList (configuredVersion env))
        "Content-Length".toList = [] := by
      unfold Header.first
      rw [hlook, hcl]
      simp
    have hlen := (w4 hfirst).trans hcl1
    exact ((v3 rfl hlen).trans (congrArg (fun b => b ++ greeting ip) (w3.trans e3))).trans
      (List.nil_append _)

/-- For a request that echoes no `Content-Length`, `index` responds with
status 200 and the page built around the address `getClientIP` resolves. -/
theorem index_page_without_content_length (env : Env) (r : Request) (g : Globals)
    (hlog : g.sugarLogger ≠ none)
    (hcl : ∀ key vs, (key, vs) ∈ r.Header →
      CanonicalMIMEHeaderKey key = "Content-Length".toList → vs = []) :
    ∃ ip s, getClientIP r = some ip ∧ index env r ⟨ResponseWriter.fresh, g⟩ = some s ∧
      s.w.status = some 200 ∧
      s.w.body = "<h1>Hello World</h1><p><h1>".toList ++ ip ++ "</h1></p>".toList := by
  obtain ⟨ip, s, hip, hs, hst, _, hbody⟩ := index_fresh env r g hlog
  exact ⟨ip, s, hip, hs, hst, hbody (echoed_eq_nil r.Header _ hcl)⟩

/-! ## Client address resolution -/

/-- Claim C1: when the first `X-Real-IP` value is non-empty after trimming,
`getClientIP` returns that value trimmed, whatever else the request holds. -/
theorem getClientIP_xRealIP (r : Request)
    (h : TrimSpace (r.Header.Get "X-Real-IP".toList) ≠ []) :
    getClientIP r = some (TrimSpace (r.Header.Get "X-Real-IP".toList)) := by
  unfold getClientIP
  simp only [h, ne_eq, not_false_eq_true, if_true]

theorem getClientIP_xRealIP_witness :
    TrimSpace (Header.Get [("X-Real-Ip".toList, [" 9.9.9.9 ".toList]),
        ("X-Forwarded-For".toList, ["1.2.3.4".toList])] "X-Real-IP".toList) ≠ [] ∧
    getClientIP (Request.mk [("X-Real-Ip".toList, [" 9.9.9.9 ".toList]),
        ("X-Forwarded-For".toList, ["1.2.3.4".toList])] "10.0.0.5:54321".toList) = some "9.9.9.9".toList :=
  ⟨by decide,
   (getClientIP_xRealIP (Request.mk [("X-Real-Ip".toList, [" 9.9.9.9 ".toList]),
        ("X-Forwarded-For".toList, ["1.2.3.4".toList])] "10.0.0.5:54321".toList) (by decide)).trans (by decide)⟩

/-- Claim C2: when `X-Real-IP` is absent or blank and the `X-Forwarded-For`
value is non-empty after trimming, `getClientIP` returns the first element of
the trimmed value split on commas, which is the text before its first comma
(all of it when it has none), whatever the peer address is; for
`1.2.3.4, 5.6.7.8` that is `1.2.3.4`. -/
theorem getClientIP_xForwardedFor (r : Request)
    (hreal : TrimSpace (r.Header.Get "X-Real-IP".toList) = [])
    (hfwd : TrimSpace (r.Header.Get "X-Forwarded-For".toList) ≠ []) :
    getClientIP r = (Split ',' (TrimSpace (r.Header.Get "X-Forwarded-For".toList))).head? ∧
    getClientIP r = some ((TrimSpace (r.Header.Get "X-Forwarded-For".toList)).takeWhile
      (fun c => decide (c ≠ ','))) ∧
    (r.Header.Get "X-Forwarded-For".toList = "1.2.3.4, 5.6.7.8".toList →
      getClientIP r = some "1.2.3.4".toList) := by
  have h1 : getClientIP r =
      (Split ',' (TrimSpace (r.Header.Get "X-Forwarded-For".toList))).head? := by
    unfold getClientIP
    simp only [hreal, hfwd, ne_eq, not_true_eq_false, not_false_eq_true, if_true, if_false]
  refine ⟨h1, by rw [h1, Split_head?], fun hv => ?_⟩
  rw [h1, hv]
  decide

theorem getClientIP_xForwardedFor_witness :
    getClientIP (Request.mk [("X-Forwarded-For".toList, ["1.2.3.4, 5.6.7.8".toList])] "10.0.0.5:54321".toList) = some "1.2.3.4".toList :=
  (getClientIP_xForwardedFor
    (Request.mk [("X-Forwarded-For".toList, ["1.2.3.4, 5.6.7.8".toList])] "10.0.0.5:54321".toList) (by decide) (by decide)).2.2 (by decide)

/-- Claim C3: when both headers are absent or blank and the peer address is
`host:port` with no colon or square bracket in host and port and no white
space around it, `getClientIP` returns the host. -/
theorem getClientIP_remoteAddr (r : Request) (host port : GoString)
    (hreal : TrimSpace (r.Header.Get "X-Real-IP".toList) = [])
    (hfwd : TrimSpace (r.Header.Get "X-Forwarded-For".toList) = [])
    (haddr : r.RemoteAddr = host ++ ':' :: port)
    (hc : ':' ∉ host) (ho : '[' ∉ host) (hcl : ']' ∉ host)
    (pc : ':' ∉ port) (po : '[' ∉ port) (pcl : ']' ∉ port)
    (hhead : ∀ c, r.RemoteAddr.head? = some c → IsSpace c = false)
    (hlast : ∀ c, r.RemoteAddr.getLast? = some c → IsSpace c = false) :
    getClientIP r = some host := by
  unfold getClientIP
  simp only [hreal, hfwd, ne_eq, not_true_eq_false, if_false]
  rw [TrimSpace_eq_self r.RemoteAddr hhead hlast, haddr,
    SplitHostPort_host_port host port hc ho hcl pc po pcl]

theorem getClientIP_remoteAddr_witness :
    getClientIP (Request.mk [] "10.0.0.5:54321".toList) =
      some "10.0.0.5".toList :=
  getClientIP_remoteAddr (Request.mk [] "10.0.0.5:54321".toList)
    "10.0.0.5".toList "54321".toList (by decide) (by decide) (by decide)
    (by decide) (by decide) (by decide) (by decide) (by decide) (by decide)
    (by decide) (by decide)

/-- Claim C4: when both headers are absent or blank and the peer address has
no colon, `getClientIP` does not fail and returns the empty string. -/
theorem getClientIP_no_colon (r : Request)
    (hreal : TrimSpace (r.Header.Get "X-Real-IP".toList) = [])
    (hfwd : TrimSpace (r.Header.Get "X-Forwarded-For".toList) = [])
    (haddr : ':' ∉ r.RemoteAddr) :
    getClientIP r = some [] := by
  unfold getClientIP
  simp only [hreal, hfwd, ne_eq, not_true_eq_false, if_false]
  unfold SplitHostPort
  rw [LastIndexByte_eq_none (not_mem_TrimSpace haddr)]

theorem getClientIP_no_colon_witness :
    getClientIP (Request.mk [] "localhost".toList) = some [] :=
  getClientIP_no_colon (Request.mk [] "localhost".toList)
    (by decide) (by decide) (by decide)

/-- Claim C10: when `X-Real-IP` is absent or blank and the trimmed
`X-Forwarded-For` value begins with a comma, `getClientIP` returns the empty
string and does not fall through to the peer address. -/
theorem getClientIP_leading_comma (r : Request) (rest : GoString)
    (hreal : TrimSpace (r.Header.Get "X-Real-IP".toList) = [])
    (hfwd : TrimSpace (r.Header.Get "X-Forwarded-For".toList) = ',' :: rest) :
    getClientIP r = some [] := by
  unfold getClientIP
  simp only [hreal, hfwd, ne_eq, not_true_eq_false, if_false]
  simp [Split]

theorem getClientIP_leading_comma_witness :
    getClientIP (Request.mk [("X-Forwarded-For".toList, [" , 5.6.7.8".toList])] "10.0.0.5:54321".toList) = some [] :=
  getClientIP_leading_comma
    (Request.mk [("X-Forwarded-For".toList, [" , 5.6.7.8".toList])] "10.0.0.5:54321".toList) " 5.6.7.8".toList (by decide) (by decide)

/-! ## Handlers -/

/-- Claim C5: `index` copies every header of the request into the response:
for each header name of the request all of its values are among the response's
values for that name (read as `Header.Values` reads them; for a name in
canonical form that is the map entry under the very same key), in the order
they have in the request. -/
theorem index_echoes_headers (env : Env) (r : Request) (g : Globals)
    (hlog : g.sugarLogger ≠ none) :
    ∃ s, index env r ⟨ResponseWriter.fresh, g⟩ = some s ∧
      ∀ key vs, (key, vs) ∈ r.Header →
        vs.Sublist (s.w.sent.Values key) ∧
        (CanonicalMIMEHeaderKey key = key → vs.Sublist (s.w.sent.lookup key)) := by
  obtain ⟨ip, s, _, hs, _, hlook, _⟩ := index_fresh env r g hlog
  have hsub : ∀ key vs, (key, vs) ∈ r.Header → vs.Sublist (s.w.sent.Values key) := by
    intro key vs hmem
    rw [Header.Values, hlook]
    exact (sublist_echoed r.Header key vs hmem).trans (List.sublist_append_left _ _)
  refine ⟨s, hs, fun key vs hmem => ⟨hsub key vs hmem, fun hkey => ?_⟩⟩
  have := hsub key vs hmem
  rwa [Header.Values, hkey] at this

theorem index_echoes_headers_witness :
    ∃ s, index emptyEnv (Request.mk [("X-Custom".toList, ["foo".toList])]
        "10.0.0.5:54321".toList) ⟨ResponseWriter.fresh, startedGlobals⟩ = some s ∧
      ["foo".toList].Sublist (s.w.sent.Values "X-Custom".toList) ∧
      ["foo".toList].Sublist (s.w.sent.lookup "X-Custom".toList) := by
  obtain ⟨s, hs, h⟩ := index_echoes_headers emptyEnv
    (Request.mk [("X-Custom".toList, ["foo".toList])] "10.0.0.5:54321".toList)
    startedGlobals (by decide)
  have hfoo := h "X-Custom".toList ["foo".toList] (by decide)
  exact ⟨s, hs, hfoo.1, hfoo.2 (by decide)⟩

/-- Claim C6 as stated fails: for a request that carries `Version: 9` and an
environment without `VERSION`, the first value of the response's `Version`
header is `9`, not the configured version `0.0.1`. -/
theorem index_version_counterexample :
    (index emptyEnv (Request.mk [("Version".toList, ["9".toList])] "10.0.0.5:54321".toList)
        ⟨ResponseWriter.fresh, startedGlobals⟩).map
      (fun s => s.w.sent.Get "Version".toList) = some "9".toList ∧
    configuredVersion emptyEnv = "0.0.1".toList ∧
    "9".toList ≠ configuredVersion emptyEnv := by
  decide

/-- Claim C6, amended: the configured version is always the last value of the
response's `Version` header, after the `Version` values echoed from the
request; `Header.Get` returns it when the request carries no value under a
header named `Version`. -/
theorem index_version_header (env : Env) (r : Request) (g : Globals)
    (hlog : g.sugarLogger ≠ none) :
    ∃ s, index env r ⟨ResponseWriter.fresh, g⟩ = some s ∧
      s.w.sent.Values "Version".toList =
        echoed r.Header "Version".toList ++ [configuredVersion env] ∧
      ((∀ key vs, (key, vs) ∈ r.Header →
          CanonicalMIMEHeaderKey key = "Version".toList → vs = []) →
        s.w.sent.Get "Version".toList = configuredVersion env) := by
  obtain ⟨ip, s, _, hs, _, hlook, _⟩ := index_fresh env r g hlog
  have hcanon : CanonicalMIMEHeaderKey "Version".toList = "Version".toList := by decide
  refine ⟨s, hs, ?_, fun hno => ?_⟩
  · rw [Header.Values, hcanon, hlook]
    simp
  · rw [Header.Get, hcanon, hlook, echoed_eq_nil r.Header _ hno]
    simp

theorem index_version_header_witness :
    ∃ s, index (fun k => if k = "VERSION".toList then some "1.2.3".toList else none)
        (Request.mk [("X-Custom".toList, ["foo".toList])] "10.0.0.5:54321".toList)
        ⟨ResponseWriter.fresh, startedGlobals⟩ = some s ∧
      s.w.sent.Get "Version".toList = "1.2.3".toList := by
  obtain ⟨s, hs, _, h⟩ := index_version_header
    (fun k => if k = "VERSION".toList then some "1.2.3".toList else none)
    (Request.mk [("X-Custom".toList, ["foo".toList])] "10.0.0.5:54321".toList)
    startedGlobals (by decide)
  refine ⟨s, hs, (h ?_).trans (by decide)⟩
  intro key vs hmem hkey
  simp only [List.mem_singleton, Prod.mk.injEq] at hmem
  obtain ⟨rfl, rfl⟩ := hmem
  exact absurd hkey (by decide)

/-- Claim C7: whatever the request is, `healthz` responds with status 200 and
the body `success`. -/
theorem healthz_ok (r : Request) (g : Globals) (hlog : g.sugarLogger ≠ none) :
    ∃ s, healthz r ⟨ResponseWriter.fresh, g⟩ = some s ∧
      s.w.status = some 200 ∧ s.w.body = "success".toList := by
  obtain ⟨ip, hip⟩ := getClientIP_isSome r
  obtain ⟨g1, hg1, _⟩ := logf_some g .DebugLevel ("Request healthz: ".toList ++ ip) hlog
  have hrun : healthz r ⟨ResponseWriter.fresh, g⟩ = some
      { w := (ResponseWriter.fresh.WriteHeader StatusOK).Write "success".toList, g := g1 } := by
    unfold healthz
    simp only [hip, hg1, Option.bind_eq_bind, Option.some_bind, Option.pure_def]
  have hstatus : ((ResponseWriter.fresh.WriteHeader StatusOK).Write
      "success".toList).status = some 200 := by decide
  have hbody : ((ResponseWriter.fresh.WriteHeader StatusOK).Write
      "success".toList).body = "success".toList := by decide
  exact ⟨_, hrun, hstatus, hbody⟩

theorem healthz_ok_witness :
    ∃ s, healthz (Request.mk [("X-Custom".toList, ["foo".toList])] "localhost".toList)
        ⟨ResponseWriter.fresh, startedGlobals⟩ = some s ∧
      s.w.status = some 200 ∧ s.w.body = "success".toList :=
  healthz_ok (Request.mk [("X-Custom".toList, ["foo".toList])] "localhost".toList)
    startedGlobals (by decide)

/-- Claim C8, evaluated where the code breaks it: for a request that carries
`Content-Length: 3` (a request with a three-byte body) and the peer address
`10.0.0.5:54321`, `getClientIP` resolves `10.0.0.5` and `index` responds with
status 200, echoes `Content-Length: 3`, and its body is empty: the page, which
is longer than three bytes, is refused by the writer. -/
theorem index_content_length_drops_body :
    getClientIP (Request.mk [("Content-Length".toList, ["3".toList])]
      "10.0.0.5:54321".toList) = some "10.0.0.5".toList ∧
    (index emptyEnv (Request.mk [("Content-Length".toList, ["3".toList])]
        "10.0.0.5:54321".toList) ⟨ResponseWriter.fresh, startedGlobals⟩).map
      (fun s => (s.w.status, s.w.sent.Get "Content-Length".toList, s.w.body)) =
      some (some 200, "3".toList, []) ∧
    "<h1>Hello World</h1><p><h1>".toList ++ "10.0.0.5".toList ++ "</h1></p>".toList ≠ [] := by
  decide

/-- Claim C9: after `InitLogger` the threshold `atomicLogLevel` is Info when
`PROFILE` is set to `PROD`, and Debug otherwise, unset included. -/
theorem InitLogger_level (env : Env) (g : Globals) :
    (InitLogger env g).atomicLogLevel =
      if env "PROFILE".toList = some "PROD".toList then Level.InfoLevel
      else Level.DebugLevel := by
  unfold InitLogger Getenv
  cases h : env "PROFILE".toList with
  | none => simp
  | some v =>
    simp only [Option.getD_some, Option.some.injEq]
    by_cases hv : v = "PROD".toList
    · rw [if_pos hv, if_pos hv]
    · rw [if_neg hv, if_neg hv]

end HttpServer
